import Mathlib

/-!
Verification of the badge-roster reconciliation pipeline (`src/main.py`,
`src/constants.py`).

The pipeline operates on pandas DataFrames loaded with `dtype=str`: every cell
is either a Python `str` or missing (`NaN`).  We embed a table as a `List` of
rows, a row as a record of `Option String` cells (`none` = missing cell), and
every pandas column operation as the corresponding per-cell string function.
`Series.astype(str)` renders a missing cell as the string `"nan"`, which the
embedding makes explicit in `astypeStr`.

Strings are Lean `String`s (lists of Unicode scalar values), matching Python
`str`.  Python's `str.lower()`/`str.casefold()` are modelled on the ASCII
fragment (the repository's allow-lists, column labels and reason names are all
ASCII); the model is exact for ASCII data.  Python's whitespace class (used by
`str.strip()` and by the regex `\s`) is the explicit code-point set
`isPySpace`.  pandas' stable sorts (`sort_values(kind="stable")`, and the
always-stable multi-column lexsort) are modelled by a stable insertion sort:
any two stable sorts with the same total preorder produce the same output list.
-/

namespace BadgeFilter

/-! ## Character-level model of Python string primitives -/

/-- U+00A0, the non-breaking space replaced by `" "` in `clean_series`. -/
def nbsp : Char := ' '

/-- U+200B, the zero-width space removed in `clean_series`. -/
def zwsp : Char := '​'

/-- The whitespace code points of Python: the set matched by `str.strip()` /
`str.isspace()` and by the regex class `\s` (Unicode mode, the default for
`str` patterns).  U+200B is deliberately not in this set — Python does not
treat the zero-width space as whitespace. -/
def isPySpace (c : Char) : Bool :=
  let n := c.toNat
  n == 32 || (9 ≤ n && n ≤ 13) || (28 ≤ n && n ≤ 31) || n == 0x85 || n == 0xA0 ||
    n == 0x1680 || (0x2000 ≤ n && n ≤ 0x200A) || n == 0x2028 || n == 0x2029 ||
    n == 0x202F || n == 0x205F || n == 0x3000

/-- ASCII lower-casing of one character: `A`–`Z` maps to `a`–`z`, everything
else is fixed.  Models Python `str.lower()` / `str.casefold()` on the ASCII
fragment used by this repository. -/
def lowerChar (c : Char) : Char :=
  if 65 ≤ c.toNat && c.toNat ≤ 90 then Char.ofNat (c.toNat + 32) else c

/-- `str.replace(" ", " ")`. -/
def nbL (l : List Char) : List Char := l.map (fun c => if c = nbsp then ' ' else c)

/-- `str.replace("​", "")`. -/
def zwL (l : List Char) : List Char := l.filter (fun c => c != zwsp)

/-- Remove the maximal trailing run of `p`-characters. -/
def dropTrail (p : Char → Bool) : List Char → List Char
  | [] => []
  | c :: cs =>
    match dropTrail p cs, p c with
    | [], true => []
    | r, _ => c :: r

/-- `str.strip()`: remove leading and trailing Python whitespace. -/
def stripL (l : List Char) : List Char := dropTrail isPySpace (l.dropWhile isPySpace)

/-- Holds when the list does not start with a `p`-character (proof-support
predicate for the normalization lemmas). -/
def headOk (p : Char → Bool) : List Char → Bool
  | [] => true
  | c :: _ => !p c

/-- Holds when the list does not end with a `p`-character. -/
def trailOk (p : Char → Bool) : List Char → Bool
  | [] => true
  | [c] => !p c
  | _ :: c :: cs => trailOk p (c :: cs)

/-- Regex substitution `re.sub(r"\s+", " ", ·)`: each maximal run of
whitespace characters becomes a single `' '`.  The boolean flag records
whether we are currently inside a whitespace run whose replacement `' '`
has already been emitted. -/
def collapseGo : Bool → List Char → List Char
  | _, [] => []
  | inRun, c :: cs =>
    if isPySpace c then
      if inRun then collapseGo true cs else ' ' :: collapseGo true cs
    else c :: collapseGo false cs

/-- `.str.replace(r"\s+", " ", regex=True)` applied to one cell. -/
def collapseL (l : List Char) : List Char := collapseGo false l

/-- `str.lower()` / `str.casefold()` applied to one cell (ASCII model). -/
def lowerL (l : List Char) : List Char := l.map lowerChar

/-- `Series.replace({"nan": ""})` applied to one cell: a cell whose entire
value is exactly `"nan"` becomes the empty string; every other value is
unchanged.  (pandas `Series.replace` with a plain dict matches whole cell
values, not substrings.) -/
def rnanL (l : List Char) : List Char := if l = "nan".data then [] else l

/-- `Series.astype(str)` on one cell: a present cell keeps its string value,
a missing cell (`NaN`) is rendered as the string `"nan"`. -/
def astypeStr : Option String → String
  | some s => s
  | none => "nan"

/-- `clean_series` (src/main.py:28-38) applied to one cell, in the source's
order: `astype(str)` is applied by the caller (`astypeStr`), then
replace U+00A0 with `" "`, remove U+200B, `strip()`,
`replace({"nan": ""})`, collapse whitespace runs to `" "`, `casefold()`. -/
def cleanL (l : List Char) : List Char :=
  lowerL (collapseL (rnanL (stripL (zwL (nbL l)))))

/-- String-level wrapper of `cleanL`. -/
def clean_series (s : String) : String := ⟨cleanL s.data⟩

/-- Python `str.casefold()` on a whole string (ASCII model); used for the
allow-lists and the filter selections. -/
def pyCasefold (s : String) : String := ⟨lowerL s.data⟩

/-- Python `str.strip()` on a whole string. -/
def pyStrip (s : String) : String := ⟨stripL s.data⟩

/-! ## Constants (src/constants.py) -/

def ALLOWED_STATUS : List String :=
  ["In Progress", "Completed", "Not Started", "Submitted", "Rejected"]

def ALLOWED_CYCLES : List String :=
  ["FY26-Q3(Jan-Mar)", "FY26-Q2(Oct-Dec)", "FY26-Q1(July-Sep)", "FY26-Q4(Apr-Jun)"]

/-- `{x.casefold() for x in ALLOWED_STATUS}` (compute_exceptions, line 79). -/
def statusAllowed : List String := ALLOWED_STATUS.map pyCasefold

/-- `{x.casefold() for x in ALLOWED_CYCLES}` (compute_exceptions, line 80). -/
def cycleAllowed : List String := ALLOWED_CYCLES.map pyCasefold

/-! ## Column resolution (`coalesce_columns`, src/main.py:41-62) -/

/-- The inner `hdr_clean`: replace U+00A0 with `" "`, remove U+200B, `strip()`. -/
def hdr_clean (s : String) : String := ⟨stripL (zwL (nbL s.data))⟩

/-- `str.replace("-", " ")` (single-character substring replacement). -/
def dashL (l : List Char) : List Char := l.map (fun c => if c = '-' then ' ' else c)

/-- `str.replace("_", " ")`. -/
def underL (l : List Char) : List Char := l.map (fun c => if c = '_' then ' ' else c)

/-- The inner `norm`: `hdr_clean(x).strip().lower().replace("-", " ").replace("_", " ")`.
Note: runs of whitespace are NOT collapsed here — only single `-`/`_`
characters are turned into single spaces. -/
def normLabel (s : String) : String :=
  ⟨underL (dashL (lowerL (stripL (hdr_clean s).data)))⟩

/-- The dict comprehension `{norm(c): c for c in df.columns}`, looked up at
one normalized key.  A Python dict comprehension keeps the LAST binding when
two columns share a normalized form, hence `getLast?`. -/
def normLookup (cols : List String) (key : String) : Option String :=
  (cols.filter (fun c => normLabel c == key)).getLast?

/-- The candidate loop `for cand in [primary] + alternates`. -/
def coalesceGo (cols : List String) : List String → Option String
  | [] => none
  | cand :: rest =>
    match normLookup cols (normLabel cand) with
    | some orig => some orig
    | none => coalesceGo cols rest

/-- `coalesce_columns` (src/main.py:41-62).  On failure the raised `KeyError`
message interpolates exactly the candidate list `[primary] + alternates` and
`list(df.columns)`; the embedding carries those two lists as the error value. -/
def coalesce_columns (cols : List String) (primary : String) (alternates : List String) :
    Except (List String × List String) String :=
  match coalesceGo cols (primary :: alternates) with
  | some orig => .ok orig
  | none => .error (primary :: alternates, cols)

/-! ## Roster rows and exception classification -/

/-- One row of the badges table, restricted to the four columns the core
reads after column resolution.  `none` models a missing (`NaN`) cell. -/
structure Row where
  gpn : Option String
  name : Option String
  status : Option String
  cycle : Option String
deriving DecidableEq

/-- `clean_series(df[col_status].fillna(""))` at one row: `fillna("")` turns a
missing cell into `""` before cleaning. -/
def normStatus (r : Row) : String := clean_series (r.status.getD "")

/-- `clean_series(df[col_cycle].fillna(""))` at one row. -/
def normCycle (r : Row) : String := clean_series (r.cycle.getD "")

/-- `clean_series(df[col_gpn])` at one row: no `fillna`, so a missing cell
reaches `clean_series` as `astype(str)`'s `"nan"` (which it maps to `""`). -/
def normGpn (r : Row) : String := clean_series (astypeStr r.gpn)

/-- `clean_series(df[col_name])` at one row. -/
def normName (r : Row) : String := clean_series (astypeStr r.name)

def status_blank (r : Row) : Bool := normStatus r == ""

def cycle_blank (r : Row) : Bool := normCycle r == ""

def status_invalid (r : Row) : Bool :=
  !status_blank r && !(statusAllowed.contains (normStatus r))

def cycle_invalid (r : Row) : Bool :=
  !cycle_blank r && !(cycleAllowed.contains (normCycle r))

def gpn_blank (r : Row) : Bool := normGpn r == ""

def name_blank (r : Row) : Bool := normName r == ""

/-- The per-row reason list built by the `for i in range(len(df))` loop of
`compute_exceptions` (src/main.py:87-96), with its fixed append order. -/
def rowReasons (r : Row) : List String :=
  (if status_blank r then ["Blank Status"] else []) ++
  (if status_invalid r then ["Invalid Status"] else []) ++
  (if cycle_blank r then ["Blank Completion-Cycle"] else []) ++
  (if cycle_invalid r then ["Invalid Completion-Cycle"] else []) ++
  (if gpn_blank r then ["Blank GPN"] else []) ++
  (if name_blank r then ["Blank Name"] else [])

/-- Python `sep.join(list)`. -/
def joinSep (sep : String) : List String → String
  | [] => ""
  | [x] => x
  | x :: y :: xs => x ++ sep ++ joinSep sep (y :: xs)

/-- The `", ".join(r)` annotation of one row. -/
def reasonStr (r : Row) : String := joinSep ", " (rowReasons r)

/-- `compute_exceptions` (src/main.py:70-100): annotate every row with its
joined reason string, then keep the rows whose `ExceptionReason` is not `""`
(`out[out["ExceptionReason"] != ""]`), preserving row order. -/
def compute_exceptions (rows : List Row) : List (Row × String) :=
  (rows.map (fun r => (r, reasonStr r))).filter (fun p => p.2 != "")

/-! ## Filtering (`apply_filters`, src/main.py:126-136) -/

/-- `set(x.casefold() for x in sel) if sel else None` — an empty selection
list is falsy in Python and becomes `None` (no constraint). -/
def mkSel (sel : List String) : Option (List String) :=
  if sel = [] then none else some (sel.map pyCasefold)

/-- The boolean mask of one row: start from `True`, AND in `s_norm.isin(sel_s)`
when the status selection is present, AND in `c_norm.isin(sel_c)` when the
cycle selection is present. -/
def rowMask (sels selc : Option (List String)) (r : Row) : Bool :=
  (match sels with
   | none => true
   | some l => l.contains (normStatus r)) &&
  (match selc with
   | none => true
   | some l => l.contains (normCycle r))

/-- `apply_filters`: `df[mask]` keeps exactly the mask-true rows in input
order. -/
def apply_filters (rows : List Row) (sel_status sel_cycle : List String) : List Row :=
  rows.filter (rowMask (mkSel sel_status) (mkSel sel_cycle))

/-! ## Stable sorting (model of pandas sorts) -/

/-- Code-point lexicographic strict order on character lists: Python `str <`,
the order pandas uses when sorting string columns. -/
def ltChars : List Char → List Char → Bool
  | [], [] => false
  | [], _ :: _ => true
  | _ :: _, [] => false
  | a :: as, b :: bs =>
    if a.toNat < b.toNat then true
    else if b.toNat < a.toNat then false
    else ltChars as bs

/-- Python `<` on strings. -/
def strLtb (a b : String) : Bool := ltChars a.data b.data

/-- Insert `a` into `l` before the first element `b` with `le a b`; equal
elements keep their relative order, so the resulting sort is stable. -/
def insertLe {α : Type} (le : α → α → Bool) (a : α) : List α → List α
  | [] => [a]
  | b :: bs => if le a b then a :: b :: bs else b :: insertLe le a bs

/-- Stable insertion sort.  Models pandas' stable sorts: `sort_values`
with `kind="stable"` (src/main.py:148) and the always-stable multi-column
lexsort (src/main.py:171). -/
def sortLe {α : Type} (le : α → α → Bool) : List α → List α
  | [] => []
  | a :: as => insertLe le a (sortLe le as)

/-! ## Deduplication (`build_unique_gpn`, src/main.py:138-152) -/

/-- The `(gpn, name)` sort key of `sort_values([col_gpn, col_name])`:
lexicographic on the two cleaned strings. -/
def pairLe (p q : String × String) : Bool :=
  strLtb p.1 q.1 || (p.1 == q.1 && !strLtb q.2 p.2)

/-- pandas `.dropna(subset=[col_gpn])` removes rows whose gpn cell is missing
(`NaN`/`None`).  At this point of `build_unique_gpn` the gpn column has just
been assigned `clean_series(df[col_gpn])`, whose values are always Python
`str` (`astype(str)` already rendered missing cells as `"nan"`, later mapped
to `""`), so no cell is `NaN` and the step removes nothing. -/
def dropnaGpn (l : List (String × String)) : List (String × String) := l

/-- The scan behind `.drop_duplicates(subset=[key], keep="first")`: keep a
row when its key was not seen before, in order. -/
def dedupeGo (seen : List String) : List (String × String) → List (String × String)
  | [] => []
  | p :: ps =>
    if seen.contains p.1 then dedupeGo seen ps
    else p :: dedupeGo (p.1 :: seen) ps

/-- `.drop_duplicates(subset=[key], keep="first")`: keep the first row of
each distinct key, in order. -/
def dedupeByKey (l : List (String × String)) : List (String × String) := dedupeGo [] l

/-- `build_unique_gpn` (src/main.py:138-152): project to the cleaned
`(gpn, name)` pair, `dropna` on the gpn column, stable sort by
`(gpn, name)`, drop duplicate gpns keeping the first. -/
def build_unique_gpn (rows : List Row) : List (String × String) :=
  dedupeByKey (sortLe pairLe (dropnaGpn (rows.map (fun r => (normGpn r, normName r)))))

/-! ## Contact-map building (`build_gpn_to_email_map`, src/main.py:154-174) -/

/-- One row of the email-master table, restricted to the two columns the
function reads after column resolution. -/
structure CRow where
  gpn : Option String
  email : Option String
deriving DecidableEq

/-- `_GPN_norm = clean_series(dfm[col_gpn])` at one row. -/
def contactKey (r : CRow) : String := clean_series (astypeStr r.gpn)

/-- `_EMAIL_raw` at one row: `astype(str)`, replace U+00A0, remove U+200B,
`strip()`, collapse whitespace — note: no `"nan"` mapping and no casefold. -/
def emailRaw (r : CRow) : String :=
  ⟨collapseL (stripL (zwL (nbL (astypeStr r.email).data)))⟩

/-- The `sort_values(["_GPN_norm", "_email_blank"])` key: gpn ascending, then
the boolean `_EMAIL_raw == ""` with `False < True`, so non-blank emails come
first within a gpn. -/
def keyLe (p q : String × String) : Bool :=
  strLtb p.1 q.1 || (p.1 == q.1 && (!(p.2 == "") || (q.2 == "")))

/-- `build_gpn_to_email_map` (src/main.py:154-174) after loading and column
resolution: build `(_GPN_norm, _EMAIL_raw)`, drop rows with `_GPN_norm == ""`,
stable sort by `(_GPN_norm, _email_blank)`, drop duplicate gpns keeping the
first.  `dict(zip(...))` on the now-unique keys is the association list
itself. -/
def build_gpn_to_email_map (rows : List CRow) : List (String × String) :=
  dedupeByKey (sortLe keyLe
    ((rows.map (fun r => (contactKey r, emailRaw r))).filter (fun p => p.1 != "")))

/-- Python `dict.get(k, "")`. -/
def map_get (m : List (String × String)) (k : String) : String :=
  match m.find? (fun p => p.1 == k) with
  | some p => p.2
  | none => ""

/-! ## Orchestrator tail (`main`, src/main.py:269-309) and dispatch guard -/

/-- The `for _, r in output_by_gpn.iterrows()` loop of `main`
(src/main.py:284-293): for each deduplicated `(gpn, name)` row, look up
`gpn_to_email.get(str(r[col_gpn]).strip().casefold(), "")`; an empty result
appends the gpn to `missing_gpns`, otherwise the email joins `valid_emails`.
Returns `(valid_emails, missing_gpns)` in row order. -/
def resolveContacts (m : List (String × String)) :
    List (String × String) → List String × List String
  | [] => ([], [])
  | (g, _) :: rest =>
    let gpnv := pyStrip g
    let email := map_get m (pyCasefold gpnv)
    let acc := resolveContacts m rest
    if email = "" then (acc.1, gpnv :: acc.2) else (email :: acc.1, acc.2)

/-- Observable pipeline events after deduplication, for the control-flow
claims about `main` and `perform_action_with_emails`. -/
inductive Ev where
  | reportZeroMatches
  | buildContactMap
  | composeMail (recipients : List String)
deriving DecidableEq

/-- The recipient-cleaning loop of `perform_action_with_emails`
(src/main.py:183-189): strip each address, skip empty ones and
case-insensitive duplicates (`seen` holds lower-cased keys). -/
def cleanEmailsGo (seen : List String) : List String → List String
  | [] => []
  | e :: rest =>
    let s := pyStrip e
    let k := pyCasefold s
    if s != "" && !(seen.contains k) then s :: cleanEmailsGo (k :: seen) rest
    else cleanEmailsGo seen rest

/-- `perform_action_with_emails` (src/main.py:176-225) as its event trace:
when the cleaned list is empty the function prints and returns before any
mail object exists; otherwise it composes one message addressed to the
cleaned list. -/
def perform_action_with_emails (emails : List String) : List Ev :=
  let clean := cleanEmailsGo [] emails
  if clean = [] then [] else [.composeMail clean]

/-- The tail of `main` from the deduplicated table on (src/main.py:269-303)
as its event trace: an empty `output_by_gpn` prints "No rows matched your
selections." and exits with status 0 (`sys.exit(0)`) before
`build_gpn_to_email_map` is ever called; otherwise the contact map is built,
contacts are resolved, and dispatch runs on the resolved emails. -/
def mainAfterDedup (output_by_gpn : List (String × String)) (masterRows : List CRow) :
    List Ev :=
  if output_by_gpn = [] then [.reportZeroMatches]
  else
    let m := build_gpn_to_email_map masterRows
    let resolved := resolveContacts m output_by_gpn
    .buildContactMap :: perform_action_with_emails resolved.1

/-! ## Character-level lemmas -/

theorem char_eq_of_toNat_eq {c d : Char} (h : c.toNat = d.toNat) : c = d :=
  Char.ext (UInt32.toNat.inj h)

theorem toNat_ofNat_of_lt {n : Nat} (h : n < 0xD800) : (Char.ofNat n).toNat = n := by
  have hv : Nat.isValidChar n := Or.inl h
  simp [Char.ofNat, hv, Char.ofNatAux, Char.toNat, UInt32.toNat, BitVec.toNat_ofNatLt]

theorem lowerChar_of_upper {c : Char} (h1 : 65 ≤ c.toNat) (h2 : c.toNat ≤ 90) :
    (lowerChar c).toNat = c.toNat + 32 := by
  have hlt : c.toNat + 32 < 0xD800 := by omega
  simp only [lowerChar]
  rw [if_pos (by simp [h1, h2])]
  exact toNat_ofNat_of_lt hlt

theorem lowerChar_of_not_upper {c : Char} (h : ¬(65 ≤ c.toNat ∧ c.toNat ≤ 90)) :
    lowerChar c = c := by
  simp only [lowerChar]
  rw [if_neg]
  simpa using h

theorem lowerChar_idem (c : Char) : lowerChar (lowerChar c) = lowerChar c := by
  by_cases h : 65 ≤ c.toNat ∧ c.toNat ≤ 90
  · have h' := lowerChar_of_upper h.1 h.2
    exact lowerChar_of_not_upper (by omega)
  · simp [lowerChar_of_not_upper h]

theorem isPySpace_lowerChar (c : Char) : isPySpace (lowerChar c) = isPySpace c := by
  by_cases h : 65 ≤ c.toNat ∧ c.toNat ≤ 90
  · have h' := lowerChar_of_upper h.1 h.2
    have hs : isPySpace c = false := by simp [isPySpace]; omega
    have hs' : isPySpace (lowerChar c) = false := by simp [isPySpace]; omega
    rw [hs, hs']
  · rw [lowerChar_of_not_upper h]

/-- `lowerChar` fixes, and never produces, any character outside both ASCII
letter ranges. -/
theorem lowerChar_eq_special {c d : Char} (hd1 : ¬(65 ≤ d.toNat ∧ d.toNat ≤ 90))
    (hd2 : ¬(97 ≤ d.toNat ∧ d.toNat ≤ 122)) : lowerChar c = d ↔ c = d := by
  constructor
  · intro h
    by_cases hc : 65 ≤ c.toNat ∧ c.toNat ≤ 90
    · exfalso
      have h' := lowerChar_of_upper hc.1 hc.2
      rw [h] at h'
      exact hd2 ⟨by omega, by omega⟩
    · rwa [lowerChar_of_not_upper hc] at h
  · intro h
    subst h
    exact lowerChar_of_not_upper hd1

theorem lowerChar_eq_nbsp {c : Char} : lowerChar c = nbsp ↔ c = nbsp :=
  lowerChar_eq_special (by decide) (by decide)

theorem lowerChar_eq_zwsp {c : Char} : lowerChar c = zwsp ↔ c = zwsp :=
  lowerChar_eq_special (by decide) (by decide)

/-! ## Lexicographic comparison lemmas -/

theorem ltChars_irrefl : ∀ l, ltChars l l = false
  | [] => rfl
  | a :: as => by simp [ltChars, ltChars_irrefl as]

theorem eq_of_not_ltChars : ∀ {a b : List Char},
    ltChars a b = false → ltChars b a = false → a = b
  | [], [], _, _ => rfl
  | [], _ :: _, h, _ => by simp [ltChars] at h
  | _ :: _, [], _, h => by simp [ltChars] at h
  | a :: as, b :: bs, h1, h2 => by
    by_cases hab : a.toNat < b.toNat
    · simp [ltChars, hab] at h1
    · by_cases hba : b.toNat < a.toNat
      · simp [ltChars, hba] at h2
      · have hc : a = b := char_eq_of_toNat_eq (by omega)
        subst hc
        simp only [ltChars, if_neg hab, if_neg hab] at h1 h2
        rw [eq_of_not_ltChars h1 h2]

theorem ltChars_trans : ∀ {a b c : List Char},
    ltChars a b = true → ltChars b c = true → ltChars a c = true
  | [], [], _, h1, _ => by simp [ltChars] at h1
  | [], _ :: _, [], _, h2 => by simp [ltChars] at h2
  | [], _ :: _, _ :: _, _, _ => rfl
  | _ :: _, [], _, h1, _ => by simp [ltChars] at h1
  | _ :: _, _ :: _, [], _, h2 => by simp [ltChars] at h2
  | a :: as, b :: bs, c :: cs, h1, h2 => by
    simp only [ltChars] at h1 h2 ⊢
    by_cases hab : a.toNat < b.toNat <;> by_cases hbc : b.toNat < c.toNat
    · have : a.toNat < c.toNat := by omega
      simp [this]
    · by_cases hcb : c.toNat < b.toNat
      · simp [hbc, hcb] at h2
      · have : a.toNat < c.toNat := by omega
        simp [this]
    · by_cases hba : b.toNat < a.toNat
      · simp [hab, hba] at h1
      · have : a.toNat < c.toNat := by omega
        simp [this]
    · by_cases hba : b.toNat < a.toNat
      · simp [hab, hba] at h1
      · by_cases hcb : c.toNat < b.toNat
        · simp [hbc, hcb] at h2
        · have hac : ¬ a.toNat < c.toNat := by omega
          have hca : ¬ c.toNat < a.toNat := by omega
          simp only [if_neg hab, if_neg hba] at h1
          simp only [if_neg hbc, if_neg hcb] at h2
          simp [hac, hca, ltChars_trans h1 h2]

theorem strLtb_irrefl (s : String) : strLtb s s = false := ltChars_irrefl s.data

theorem eq_of_not_strLtb {a b : String} (h1 : strLtb a b = false)
    (h2 : strLtb b a = false) : a = b :=
  String.ext (eq_of_not_ltChars h1 h2)

theorem strLtb_trans {a b c : String} (h1 : strLtb a b = true)
    (h2 : strLtb b c = true) : strLtb a c = true :=
  ltChars_trans h1 h2

/-! ## Stable-sort lemmas -/

theorem mem_insertLe {α : Type} (le : α → α → Bool) (a x : α) :
    ∀ l, x ∈ insertLe le a l ↔ x = a ∨ x ∈ l
  | [] => by simp [insertLe]
  | b :: bs => by
    by_cases h : le a b = true
    · simp only [insertLe, if_pos h, List.mem_cons]
    · simp only [insertLe, if_neg h, List.mem_cons, mem_insertLe le a x bs]
      tauto

theorem perm_insertLe {α : Type} (le : α → α → Bool) (a : α) :
    ∀ l, (insertLe le a l).Perm (a :: l)
  | [] => List.Perm.refl _
  | b :: bs => by
    by_cases h : le a b = true
    · simp [insertLe, h, List.Perm.refl]
    · simp only [insertLe, if_neg h]
      exact ((perm_insertLe le a bs).cons b).trans (List.Perm.swap a b bs)

theorem perm_sortLe {α : Type} (le : α → α → Bool) : ∀ l, (sortLe le l).Perm l
  | [] => List.Perm.refl _
  | a :: as => (perm_insertLe le a (sortLe le as)).trans ((perm_sortLe le as).cons a)

theorem pairwise_insertLe {α : Type} {le : α → α → Bool}
    (htrans : ∀ x y z, le x y = true → le y z = true → le x z = true)
    (htot : ∀ x y, le x y = true ∨ le y x = true) (a : α) :
    ∀ {l}, List.Pairwise (fun x y => le x y = true) l →
      List.Pairwise (fun x y => le x y = true) (insertLe le a l)
  | [], _ => by simp [insertLe]
  | b :: bs, hp => by
    rcases List.pairwise_cons.mp hp with ⟨hb, hbs⟩
    by_cases h : le a b = true
    · simp only [insertLe, if_pos h]
      refine List.Pairwise.cons ?_ hp
      intro y hy
      rcases List.mem_cons.mp hy with hyb | hyt
      · exact hyb ▸ h
      · exact htrans a b y h (hb y hyt)
    · have hba : le b a = true := (htot a b).resolve_left h
      simp only [insertLe, if_neg h]
      refine List.Pairwise.cons ?_ (pairwise_insertLe htrans htot a hbs)
      intro y hy
      rcases (mem_insertLe le a y bs).mp hy with hya | hyt
      · exact hya ▸ hba
      · exact hb y hyt

theorem pairwise_sortLe {α : Type} {le : α → α → Bool}
    (htrans : ∀ x y z, le x y = true → le y z = true → le x z = true)
    (htot : ∀ x y, le x y = true ∨ le y x = true) :
    ∀ l, List.Pairwise (fun x y => le x y = true) (sortLe le l)
  | [] => List.Pairwise.nil
  | a :: as => pairwise_insertLe htrans htot a (pairwise_sortLe htrans htot as)

/-! ## Dedup-scan lemmas -/

theorem mem_dedupeGo : ∀ (seen : List String) (l : List (String × String)) (k v : String),
    ((k, v) ∈ dedupeGo seen l) ↔
      (seen.contains k = false ∧ l.find? (fun p => p.1 == k) = some (k, v))
  | seen, [], k, v => by simp [dedupeGo]
  | seen, p :: ps, k, v => by
    by_cases hs : seen.contains p.1 = true
    · by_cases hpk : p.1 = k
      · subst hpk
        simp only [dedupeGo, if_pos hs, mem_dedupeGo seen ps]
        constructor
        · rintro ⟨hc, _⟩
          rw [hs] at hc; cases hc
        · rintro ⟨hc, _⟩
          rw [hs] at hc; cases hc
      · simp only [dedupeGo, if_pos hs, mem_dedupeGo seen ps, List.find?_cons,
          beq_iff_eq, if_neg hpk]
        have : (p.1 == k) = false := by simp [hpk]
        simp [this]
    · have hs' : seen.contains p.1 = false := by simpa using hs
      by_cases hpk : p.1 = k
      · subst hpk
        simp only [dedupeGo, if_neg hs, List.mem_cons, mem_dedupeGo (p.1 :: seen) ps,
          List.find?_cons]
        have hk : (p.1 == p.1) = true := by simp
        simp only [hk]
        constructor
        · rintro (hpe | ⟨hc, _⟩)
          · exact ⟨hs', by rw [← hpe]⟩
          · exfalso
            simp [List.contains_cons] at hc
        · rintro ⟨_, hfe⟩
          exact Or.inl (by injection hfe with h; exact h.symm)
      · simp only [dedupeGo, if_neg hs, List.mem_cons, mem_dedupeGo (p.1 :: seen) ps,
          List.find?_cons]
        have hkb : (p.1 == k) = false := by simp [hpk]
        simp only [hkb]
        have hcc : (p.1 :: seen).contains k = seen.contains k := by
          simp [List.contains_cons, Ne.symm hpk]
        rw [hcc]
        constructor
        · rintro (hpe | h)
          · exact absurd (congrArg Prod.fst hpe).symm hpk
          · exact h
        · exact fun h => Or.inr h

theorem nodupKeys_dedupeGo : ∀ (seen : List String) (l : List (String × String)),
    ((dedupeGo seen l).map Prod.fst).Nodup ∧
      ∀ k ∈ (dedupeGo seen l).map Prod.fst, seen.contains k = false
  | seen, [] => by simp [dedupeGo]
  | seen, p :: ps => by
    by_cases hs : seen.contains p.1 = true
    · simp only [dedupeGo, if_pos hs]
      exact nodupKeys_dedupeGo seen ps
    · have hs' : seen.contains p.1 = false := by simpa using hs
      obtain ⟨hnd, hsn⟩ := nodupKeys_dedupeGo (p.1 :: seen) ps
      simp only [dedupeGo, if_neg hs, List.map_cons, List.nodup_cons]
      refine ⟨⟨?_, hnd⟩, ?_⟩
      · intro hmem
        have := hsn p.1 hmem
        simp [List.contains_cons] at this
      · intro k hk
        rcases List.mem_cons.mp hk with hkp | hkt
        · exact hkp ▸ hs'
        · have := hsn k hkt
          simp only [List.contains_cons, Bool.or_eq_false_iff] at this
          exact this.2

theorem mem_of_mem_dedupeGo {seen : List String} {l : List (String × String)}
    {q : String × String} (h : q ∈ dedupeGo seen l) : q ∈ l := by
  obtain ⟨k, v⟩ := q
  exact List.mem_of_find?_eq_some ((mem_dedupeGo seen l k v).mp h).2

/-! ## Strip lemmas -/

theorem headOk_dropWhile (p : Char → Bool) :
    ∀ l : List Char, headOk p (List.dropWhile p l) = true
  | [] => rfl
  | c :: cs => by
    by_cases h : p c = true
    · rw [List.dropWhile_cons, if_pos h]
      exact headOk_dropWhile p cs
    · rw [List.dropWhile_cons, if_neg h]
      simpa [headOk] using h

theorem trailOk_dropTrail (p : Char → Bool) : ∀ l, trailOk p (dropTrail p l) = true
  | [] => rfl
  | c :: cs => by
    have ih := trailOk_dropTrail p cs
    rcases h : dropTrail p cs with _ | ⟨x, xs⟩ <;> by_cases hpc : p c = true
    · simp [dropTrail, h, hpc, trailOk]
    · simp only [Bool.not_eq_true] at hpc
      simp [dropTrail, h, hpc, trailOk]
    · rw [h] at ih
      simp [dropTrail, h, hpc, trailOk, ih]
    · rw [h] at ih
      simp only [Bool.not_eq_true] at hpc
      simp [dropTrail, h, hpc, trailOk, ih]

theorem mem_dropTrail (p : Char → Bool) {c : Char} :
    ∀ {l : List Char}, c ∈ dropTrail p l → c ∈ l
  | [], h => h
  | a :: as, h => by
    rcases hd : dropTrail p as with _ | ⟨x, xs⟩
    · by_cases hpa : p a = true
      · simp [dropTrail, hd, hpa] at h
      · simp only [Bool.not_eq_true] at hpa
        simp only [dropTrail, hd, hpa] at h
        rcases List.mem_singleton.mp h with h'
        exact h' ▸ List.mem_cons_self a as
    · simp only [dropTrail, hd] at h
      rcases List.mem_cons.mp h with h' | h'
      · exact h' ▸ List.mem_cons_self a as
      · exact List.mem_cons_of_mem a (mem_dropTrail p (hd ▸ h'))

theorem headOk_dropTrail (p : Char → Bool) : ∀ {l : List Char}, headOk p l = true →
    headOk p (dropTrail p l) = true
  | [], _ => rfl
  | c :: cs, h => by
    have hpc : p c = false := by simpa [headOk] using h
    rcases hd : dropTrail p cs with _ | ⟨x, xs⟩
    · simp [dropTrail, hd, hpc, headOk]
    · simp [dropTrail, hd, headOk, hpc]

theorem dropWhile_eq_self_of_headOk {p : Char → Bool} :
    ∀ {l}, headOk p l = true → l.dropWhile p = l
  | [], _ => rfl
  | c :: cs, h => by
    have : p c = false := by simpa [headOk] using h
    rw [List.dropWhile_cons, if_neg (by simp [this])]

theorem dropTrail_cons_of_cons {p : Char → Bool} {c x : Char} {cs xs : List Char}
    (h : dropTrail p cs = x :: xs) : dropTrail p (c :: cs) = c :: x :: xs := by
  have : dropTrail p (c :: cs) =
      (match dropTrail p cs, p c with
       | [], true => []
       | r, _ => c :: r) := rfl
  rw [this, h]

theorem dropTrail_eq_self_of_trailOk {p : Char → Bool} :
    ∀ {l : List Char}, trailOk p l = true → dropTrail p l = l
  | [], _ => rfl
  | [c], h => by
    have : p c = false := by simpa [trailOk] using h
    simp [dropTrail, this]
  | c :: d :: cs, h => by
    have h' : trailOk p (d :: cs) = true := by simpa [trailOk] using h
    exact dropTrail_cons_of_cons (dropTrail_eq_self_of_trailOk h')

theorem stripL_eq_self {l : List Char} (h1 : headOk isPySpace l = true)
    (h2 : trailOk isPySpace l = true) : stripL l = l := by
  rw [stripL, dropWhile_eq_self_of_headOk h1, dropTrail_eq_self_of_trailOk h2]

theorem headOk_stripL (l : List Char) : headOk isPySpace (stripL l) = true :=
  headOk_dropTrail isPySpace (headOk_dropWhile isPySpace l)

theorem trailOk_stripL (l : List Char) : trailOk isPySpace (stripL l) = true :=
  trailOk_dropTrail isPySpace _

/-! ## Collapse lemmas -/

theorem collapseGo_cons_space_false {c : Char} {cs : List Char} (h : isPySpace c = true) :
    collapseGo false (c :: cs) = ' ' :: collapseGo true cs := by
  simp only [collapseGo, h]
  rfl

theorem collapseGo_cons_space_true {c : Char} {cs : List Char} (h : isPySpace c = true) :
    collapseGo true (c :: cs) = collapseGo true cs := by
  simp only [collapseGo, h]
  rfl

theorem collapseGo_cons_nonspace (b : Bool) {c : Char} {cs : List Char}
    (h : isPySpace c = false) : collapseGo b (c :: cs) = c :: collapseGo false cs := by
  simp only [collapseGo, h]
  rfl

theorem trailOk_cons_cons (p : Char → Bool) (c d : Char) (cs : List Char) :
    trailOk p (c :: d :: cs) = trailOk p (d :: cs) := rfl

theorem collapseGo_idem : ∀ l : List Char,
    collapseGo false (collapseGo true l) = collapseGo true l ∧
    collapseGo true (collapseGo true l) = collapseGo true l ∧
    collapseGo false (collapseGo false l) = collapseGo false l
  | [] => ⟨rfl, rfl, rfl⟩
  | c :: cs => by
    obtain ⟨ih1, ih2, ih3⟩ := collapseGo_idem cs
    by_cases hc : isPySpace c = true
    · refine ⟨?_, ?_, ?_⟩
      · rw [collapseGo_cons_space_true hc, ih1]
      · rw [collapseGo_cons_space_true hc, ih2]
      · rw [collapseGo_cons_space_false hc,
          collapseGo_cons_space_false (show isPySpace ' ' = true from rfl), ih2]
    · have hc' : isPySpace c = false := by simpa using hc
      refine ⟨?_, ?_, ?_⟩ <;>
        rw [collapseGo_cons_nonspace _ hc', collapseGo_cons_nonspace _ hc', ih3]

theorem collapseGo_lowerL : ∀ (b : Bool) (l : List Char),
    collapseGo b (lowerL l) = lowerL (collapseGo b l)
  | _, [] => rfl
  | b, c :: cs => by
    have hmap : lowerL (c :: cs) = lowerChar c :: lowerL cs := rfl
    by_cases hc : isPySpace c = true
    · have hc' : isPySpace (lowerChar c) = true := by rw [isPySpace_lowerChar]; exact hc
      cases b
      · rw [hmap, collapseGo_cons_space_false hc', collapseGo_cons_space_false hc,
          collapseGo_lowerL true cs]
        rfl
      · rw [hmap, collapseGo_cons_space_true hc', collapseGo_cons_space_true hc,
          collapseGo_lowerL true cs]
    · have hc0 : isPySpace c = false := by simpa using hc
      have hc' : isPySpace (lowerChar c) = false := by rw [isPySpace_lowerChar]; exact hc0
      rw [hmap, collapseGo_cons_nonspace b hc', collapseGo_cons_nonspace b hc0,
        collapseGo_lowerL false cs]
      rfl

theorem mem_collapseGo {c : Char} : ∀ {b : Bool} {l : List Char},
    c ∈ collapseGo b l → c = ' ' ∨ c ∈ l
  | _, [], h => by simp [collapseGo] at h
  | b, a :: as, h => by
    by_cases ha : isPySpace a = true
    · cases b
      · rw [collapseGo_cons_space_false ha] at h
        rcases List.mem_cons.mp h with h | h
        · exact Or.inl h
        · rcases mem_collapseGo h with h' | h'
          · exact Or.inl h'
          · exact Or.inr (List.mem_cons_of_mem a h')
      · rw [collapseGo_cons_space_true ha] at h
        rcases mem_collapseGo h with h' | h'
        · exact Or.inl h'
        · exact Or.inr (List.mem_cons_of_mem a h')
    · rw [collapseGo_cons_nonspace b (by simpa using ha)] at h
      rcases List.mem_cons.mp h with h | h
      · exact Or.inr (h ▸ List.mem_cons_self a as)
      · rcases mem_collapseGo h with h' | h'
        · exact Or.inl h'
        · exact Or.inr (List.mem_cons_of_mem a h')

theorem collapseGo_ne_nil : ∀ {l : List Char} (b : Bool), trailOk isPySpace l = true →
    l ≠ [] → collapseGo b l ≠ []
  | [], _, _, hne => absurd rfl hne
  | [c], b, ht, _ => by
    have hc : isPySpace c = false := by simpa [trailOk] using ht
    rw [collapseGo_cons_nonspace b hc]
    simp
  | c :: d :: cs, b, ht, _ => by
    have ht' : trailOk isPySpace (d :: cs) = true := by simpa [trailOk] using ht
    by_cases hc : isPySpace c = true
    · cases b
      · rw [collapseGo_cons_space_false hc]
        simp
      · rw [collapseGo_cons_space_true hc]
        exact collapseGo_ne_nil true ht' (by simp)
    · rw [collapseGo_cons_nonspace b (by simpa using hc)]
      simp

theorem trailOk_collapseGo : ∀ {l : List Char} (b : Bool), trailOk isPySpace l = true →
    trailOk isPySpace (collapseGo b l) = true
  | [], _, _ => rfl
  | [c], b, ht => by
    have hc : isPySpace c = false := by simpa [trailOk] using ht
    rw [collapseGo_cons_nonspace b hc]
    simpa [trailOk] using hc
  | c :: d :: cs, b, ht => by
    have ht' : trailOk isPySpace (d :: cs) = true := by simpa [trailOk] using ht
    by_cases hc : isPySpace c = true
    · cases b
      · have hrec := trailOk_collapseGo true ht'
        have hne : collapseGo true (d :: cs) ≠ [] := collapseGo_ne_nil true ht' (by simp)
        rw [collapseGo_cons_space_false hc]
        rcases hx : collapseGo true (d :: cs) with _ | ⟨x, xs⟩
        · exact absurd hx hne
        · rw [hx] at hrec
          exact hrec
      · rw [collapseGo_cons_space_true hc]
        exact trailOk_collapseGo true ht'
    · have hc0 : isPySpace c = false := by simpa using hc
      have hrec := trailOk_collapseGo false ht'
      have hne : collapseGo false (d :: cs) ≠ [] := collapseGo_ne_nil false ht' (by simp)
      rw [collapseGo_cons_nonspace b hc0]
      rcases hx : collapseGo false (d :: cs) with _ | ⟨x, xs⟩
      · exact absurd hx hne
      · rw [hx] at hrec
        exact hrec

theorem headOk_collapseGo_false {l : List Char} (h : headOk isPySpace l = true) :
    headOk isPySpace (collapseGo false l) = true := by
  cases l with
  | nil => rfl
  | cons c cs =>
    have hc : isPySpace c = false := by simpa [headOk] using h
    rw [collapseGo_cons_nonspace false hc]
    simpa [headOk] using hc

/-! ## Lower-casing lemmas on lists -/

theorem lowerL_idem (l : List Char) : lowerL (lowerL l) = lowerL l := by
  simp only [lowerL, List.map_map]
  exact List.map_congr_left (fun c _ => lowerChar_idem c)

theorem headOk_lowerL {l : List Char} (h : headOk isPySpace l = true) :
    headOk isPySpace (lowerL l) = true := by
  cases l with
  | nil => rfl
  | cons c cs => simpa [lowerL, headOk, isPySpace_lowerChar] using h

theorem trailOk_lowerL : ∀ {l : List Char}, trailOk isPySpace l = true →
    trailOk isPySpace (lowerL l) = true
  | [], _ => rfl
  | [c], h => by simpa [lowerL, trailOk, isPySpace_lowerChar] using h
  | c :: d :: cs, h => by
    have h' : trailOk isPySpace (d :: cs) = true := by simpa [trailOk] using h
    simpa [lowerL, trailOk] using trailOk_lowerL h'

/-! ## The normalized string is a fixed point of every cleaning stage -/

theorem mem_nbL_ne_nbsp {l : List Char} {c : Char} (h : c ∈ nbL l) : c ≠ nbsp := by
  obtain ⟨e, _, he⟩ := List.mem_map.mp h
  by_cases hen : e = nbsp
  · rw [← he, if_pos hen]
    decide
  · rw [← he, if_neg hen]
    exact hen

theorem mem_of_mem_zwL {l : List Char} {c : Char} (h : c ∈ zwL l) : c ∈ l :=
  (List.mem_filter.mp h).1

theorem mem_zwL_ne_zwsp {l : List Char} {c : Char} (h : c ∈ zwL l) : c ≠ zwsp := by
  have := (List.mem_filter.mp h).2
  simpa using this

theorem mem_of_mem_stripL {l : List Char} {c : Char} (h : c ∈ stripL l) : c ∈ l :=
  (List.dropWhile_sublist isPySpace).mem (mem_dropTrail isPySpace h)

theorem mem_of_mem_rnanL {l : List Char} {c : Char} (h : c ∈ rnanL l) : c ∈ l := by
  unfold rnanL at h
  split at h
  · cases h
  · exact h

theorem cleanL_no_special (l : List Char) : ∀ c ∈ cleanL l, c ≠ nbsp ∧ c ≠ zwsp := by
  intro c hc
  obtain ⟨d, hd, hcd⟩ := List.mem_map.mp hc
  have hd2 : d = ' ' ∨ d ∈ zwL (nbL l) := by
    rcases mem_collapseGo hd with h | h
    · exact Or.inl h
    · exact Or.inr (mem_of_mem_stripL (mem_of_mem_rnanL h))
  rcases hd2 with hsp | hmem
  · rw [← hcd, hsp]
    exact ⟨by decide, by decide⟩
  · have hdn : d ≠ nbsp := mem_nbL_ne_nbsp (mem_of_mem_zwL hmem)
    have hdz : d ≠ zwsp := mem_zwL_ne_zwsp hmem
    constructor
    · intro hcn
      exact hdn (lowerChar_eq_nbsp.mp (hcd.trans hcn))
    · intro hcz
      exact hdz (lowerChar_eq_zwsp.mp (hcd.trans hcz))

theorem headOk_rnanL {p : Char → Bool} {l : List Char} (h : headOk p l = true) :
    headOk p (rnanL l) = true := by
  unfold rnanL
  split
  · rfl
  · exact h

theorem trailOk_rnanL {p : Char → Bool} {l : List Char} (h : trailOk p l = true) :
    trailOk p (rnanL l) = true := by
  unfold rnanL
  split
  · rfl
  · exact h

theorem headOk_cleanL (l : List Char) : headOk isPySpace (cleanL l) = true :=
  headOk_lowerL (headOk_collapseGo_false (headOk_rnanL (headOk_stripL _)))

theorem trailOk_cleanL (l : List Char) : trailOk isPySpace (cleanL l) = true :=
  trailOk_lowerL (trailOk_collapseGo false (trailOk_rnanL (trailOk_stripL _)))

/-- If one pass of cleaning did not produce the exact string `"nan"`, a second
pass is the identity: the output has no non-breaking or zero-width spaces, is
already stripped and whitespace-collapsed, and is already lower-case; the only
stage that could still act is the `"nan" ↦ ""` mapping. -/
theorem cleanL_fixed {l : List Char} (h : cleanL l ≠ "nan".data) :
    cleanL (cleanL l) = cleanL l := by
  have hspec := cleanL_no_special l
  have hnb : nbL (cleanL l) = cleanL l := by
    unfold nbL
    refine (List.map_congr_left ?_).trans (List.map_id _)
    intro c hc
    exact if_neg (hspec c hc).1
  have hzw : zwL (cleanL l) = cleanL l := by
    unfold zwL
    rw [List.filter_eq_self]
    intro c hc
    simpa using (hspec c hc).2
  have hstrip : stripL (cleanL l) = cleanL l :=
    stripL_eq_self (headOk_cleanL l) (trailOk_cleanL l)
  have hrn : rnanL (cleanL l) = cleanL l := if_neg h
  have hcol : collapseL (cleanL l) = cleanL l := by
    show collapseGo false (lowerL (collapseGo false (rnanL (stripL (zwL (nbL l))))))
        = lowerL (collapseGo false (rnanL (stripL (zwL (nbL l)))))
    rw [collapseGo_lowerL, (collapseGo_idem _).2.2]
  have hlow : lowerL (cleanL l) = cleanL l := by
    show lowerL (lowerL (collapseL (rnanL (stripL (zwL (nbL l))))))
        = lowerL (collapseL (rnanL (stripL (zwL (nbL l)))))
    exact lowerL_idem _
  show lowerL (collapseL (rnanL (stripL (zwL (nbL (cleanL l)))))) = cleanL l
  rw [hnb, hzw, hstrip, hrn, hcol, hlow]

theorem clean_series_data (s : String) : (clean_series s).data = cleanL s.data := rfl

theorem clean_series_fixed {s : String} (h : clean_series s ≠ "nan") :
    clean_series (clean_series s) = clean_series s := by
  apply String.ext
  rw [clean_series_data, clean_series_data]
  exact cleanL_fixed (fun hd => h (String.ext hd))

/-! ## Case-insensitivity of label normalization -/

theorem nbL_lowEq : ∀ {a b : List Char}, a.map lowerChar = b.map lowerChar →
    (nbL a).map lowerChar = (nbL b).map lowerChar
  | [], [], _ => rfl
  | [], _ :: _, h => by simp at h
  | _ :: _, [], h => by simp at h
  | x :: xs, y :: ys, h => by
    simp only [List.map_cons, List.cons.injEq] at h
    obtain ⟨h1, h2⟩ := h
    have htl := nbL_lowEq h2
    by_cases hx : x = nbsp
    · have hy : y = nbsp := by
        apply lowerChar_eq_nbsp.mp
        rw [← h1, hx]
        decide
      simp only [nbL, List.map_cons, if_pos hx, if_pos hy, List.cons.injEq]
      exact ⟨trivial, htl⟩
    · have hy : y ≠ nbsp := by
        intro hy
        apply hx
        apply lowerChar_eq_nbsp.mp
        rw [h1, hy]
        decide
      simp only [nbL, List.map_cons, if_neg hx, if_neg hy, List.cons.injEq]
      exact ⟨h1, htl⟩

theorem zwL_lowEq : ∀ {a b : List Char}, a.map lowerChar = b.map lowerChar →
    (zwL a).map lowerChar = (zwL b).map lowerChar
  | [], [], _ => rfl
  | [], _ :: _, h => by simp at h
  | _ :: _, [], h => by simp at h
  | x :: xs, y :: ys, h => by
    simp only [List.map_cons, List.cons.injEq] at h
    obtain ⟨h1, h2⟩ := h
    have htl := zwL_lowEq h2
    by_cases hx : x = zwsp
    · have hy : y = zwsp := by
        apply lowerChar_eq_zwsp.mp
        rw [← h1, hx]
        decide
      simp only [zwL, List.filter_cons, if_pos hx, if_pos hy]
      have ex : (x != zwsp) = false := by simp [hx]
      have ey : (y != zwsp) = false := by simp [hy]
      simpa [ex, ey] using htl
    · have hy : y ≠ zwsp := by
        intro hy
        apply hx
        apply lowerChar_eq_zwsp.mp
        rw [h1, hy]
        decide
      have ex : (x != zwsp) = true := by simp [hx]
      have ey : (y != zwsp) = true := by simp [hy]
      simp only [zwL, List.filter_cons, ex, ey, if_true, List.map_cons, List.cons.injEq]
      exact ⟨h1, htl⟩

theorem isPySpace_eq_of_lower_eq {x y : Char} (h : lowerChar x = lowerChar y) :
    isPySpace x = isPySpace y := by
  rw [← isPySpace_lowerChar x, ← isPySpace_lowerChar y, h]

theorem dropWhile_lowEq : ∀ {a b : List Char}, a.map lowerChar = b.map lowerChar →
    (a.dropWhile isPySpace).map lowerChar = (b.dropWhile isPySpace).map lowerChar
  | [], [], _ => rfl
  | [], _ :: _, h => by simp at h
  | _ :: _, [], h => by simp at h
  | x :: xs, y :: ys, h => by
    have h0 := h
    simp only [List.map_cons, List.cons.injEq] at h
    obtain ⟨h1, h2⟩ := h
    have hsp := isPySpace_eq_of_lower_eq h1
    by_cases hx : isPySpace x = true
    · rw [List.dropWhile_cons, if_pos hx, List.dropWhile_cons, if_pos (hsp ▸ hx)]
      exact dropWhile_lowEq h2
    · have hy : ¬ isPySpace y = true := by rw [← hsp]; exact hx
      rw [List.dropWhile_cons, if_neg hx, List.dropWhile_cons, if_neg hy]
      exact h0

theorem dropTrail_lowEq : ∀ {a b : List Char}, a.map lowerChar = b.map lowerChar →
    (dropTrail isPySpace a).map lowerChar = (dropTrail isPySpace b).map lowerChar
  | [], [], _ => rfl
  | [], _ :: _, h => by simp at h
  | _ :: _, [], h => by simp at h
  | x :: xs, y :: ys, h => by
    simp only [List.map_cons, List.cons.injEq] at h
    obtain ⟨h1, h2⟩ := h
    have htl := dropTrail_lowEq h2
    have hsp := isPySpace_eq_of_lower_eq h1
    rcases hdx : dropTrail isPySpace xs with _ | ⟨u, us⟩ <;>
      rcases hdy : dropTrail isPySpace ys with _ | ⟨v, vs⟩
    · by_cases hx : isPySpace x = true
      · simp [dropTrail, hdx, hdy, hx, hsp ▸ hx]
      · have hx' : isPySpace x = false := by simpa using hx
        have hy' : isPySpace y = false := hsp ▸ hx'
        simp [dropTrail, hdx, hdy, hx', hy', h1]
    · rw [hdx, hdy] at htl
      simp at htl
    · rw [hdx, hdy] at htl
      simp at htl
    · rw [hdx, hdy] at htl
      rw [dropTrail_cons_of_cons hdx, dropTrail_cons_of_cons hdy]
      simp only [List.map_cons] at htl ⊢
      rw [h1, htl]

theorem stripL_lowEq {a b : List Char} (h : a.map lowerChar = b.map lowerChar) :
    (stripL a).map lowerChar = (stripL b).map lowerChar :=
  dropTrail_lowEq (dropWhile_lowEq h)

/-- Two labels whose characters agree up to ASCII case get the same
normalized key in `coalesce_columns`. -/
theorem normLabel_of_map_lower_eq {s t : String}
    (h : s.data.map lowerChar = t.data.map lowerChar) : normLabel s = normLabel t := by
  apply String.ext
  show underL (dashL (lowerL (stripL (stripL (zwL (nbL s.data))))))
      = underL (dashL (lowerL (stripL (stripL (zwL (nbL t.data))))))
  have h5 := stripL_lowEq (stripL_lowEq (zwL_lowEq (nbL_lowEq h)))
  have : lowerL (stripL (stripL (zwL (nbL s.data))))
      = lowerL (stripL (stripL (zwL (nbL t.data)))) := h5
  rw [this]

/-! ## Column-resolution lemmas -/

theorem coalesceGo_skip {cols : List String} :
    ∀ {pre rest : List String}, (∀ c ∈ pre, normLookup cols (normLabel c) = none) →
      coalesceGo cols (pre ++ rest) = coalesceGo cols rest
  | [], _, _ => rfl
  | c :: pre, rest, h => by
    have hc : normLookup cols (normLabel c) = none := h c (List.mem_cons_self c pre)
    show (match normLookup cols (normLabel c) with
          | some orig => some orig
          | none => coalesceGo cols (pre ++ rest)) = coalesceGo cols rest
    rw [hc]
    exact coalesceGo_skip (fun d hd => h d (List.mem_cons_of_mem c hd))

theorem normLookup_mem {cols : List String} {key orig : String}
    (h : normLookup cols key = some orig) : orig ∈ cols :=
  List.mem_of_mem_filter (List.mem_of_mem_getLast? h)

theorem coalesceGo_cons_found {cols : List String} {c orig : String} {rest : List String}
    (h : normLookup cols (normLabel c) = some orig) :
    coalesceGo cols (c :: rest) = some orig := by
  show (match normLookup cols (normLabel c) with
        | some orig => some orig
        | none => coalesceGo cols rest) = some orig
  rw [h]

/-! ## Join lemmas -/

theorem append_ne_empty_left {a b : String} (h : a ≠ "") : a ++ b ≠ "" := by
  intro he
  apply h
  apply String.ext
  have hd : (a ++ b).data = a.data ++ b.data := by simp
  rw [he] at hd
  exact (List.append_eq_nil.mp hd.symm).1

theorem joinSep_eq_empty_iff (sep : String) :
    ∀ {l : List String}, (∀ x ∈ l, x ≠ "") → (joinSep sep l = "" ↔ l = [])
  | [], _ => by simp [joinSep]
  | [x], h => by
    have hx : x ≠ "" := h x (List.mem_singleton.mpr rfl)
    simp [joinSep, hx]
  | x :: y :: xs, h => by
    have hx : x ≠ "" := h x (List.mem_cons_self _ _)
    simp only [joinSep]
    constructor
    · intro he
      exact absurd he (by
        rw [String.append_assoc]
        exact append_ne_empty_left hx)
    · intro he
      cases he

/-! ## Reason-list lemmas -/

theorem mem_rowReasons_ne_empty (r : Row) : ∀ x ∈ rowReasons r, x ≠ "" := by
  intro x hx
  simp only [rowReasons, List.mem_append] at hx
  rcases hx with ((((hx | hx) | hx) | hx) | hx) | hx <;>
    · revert hx
      split <;> intro hx <;> simp_all

theorem reasonStr_eq_empty_iff (r : Row) : reasonStr r = "" ↔ rowReasons r = [] :=
  joinSep_eq_empty_iff ", " (mem_rowReasons_ne_empty r)

theorem compute_exceptions_eq (rows : List Row) :
    compute_exceptions rows
      = (rows.filter (fun r => rowReasons r != [])).map (fun r => (r, reasonStr r)) := by
  induction rows with
  | nil => rfl
  | cons r rs ih =>
    show ((r, reasonStr r) :: rs.map (fun r => (r, reasonStr r))).filter
        (fun p => p.2 != "") = _
    rw [List.filter_cons, List.filter_cons]
    have hcond : ((reasonStr r != "") : Bool) = (rowReasons r != []) := by
      by_cases h : rowReasons r = []
      · have hs : reasonStr r = "" := (reasonStr_eq_empty_iff r).mpr h
        rw [hs, h]
        decide
      · have hs : reasonStr r ≠ "" := fun he => h ((reasonStr_eq_empty_iff r).mp he)
        rw [bne_iff_ne.mpr hs, bne_iff_ne.mpr h]
    rw [hcond]
    by_cases h : rowReasons r = []
    · simp only [h]
      simpa using ih
    · have hb : (rowReasons r != []) = true := by simp [h]
      simp only [hb, if_true]
      rw [List.map_cons]
      exact congrArg _ ih

/-- The claim-side description of the reason list: the six checks in their
fixed order, filtered down to the triggered ones. -/
theorem rowReasons_filterMap (r : Row) :
    rowReasons r =
      ([(status_blank r, "Blank Status"), (status_invalid r, "Invalid Status"),
        (cycle_blank r, "Blank Completion-Cycle"),
        (cycle_invalid r, "Invalid Completion-Cycle"),
        (gpn_blank r, "Blank GPN"), (name_blank r, "Blank Name")].filterMap
          (fun p => if p.1 then some p.2 else none)) := by
  cases h1 : status_blank r <;> cases h2 : status_invalid r <;>
    cases h3 : cycle_blank r <;> cases h4 : cycle_invalid r <;>
      cases h5 : gpn_blank r <;> cases h6 : name_blank r <;>
        simp [rowReasons, h1, h2, h3, h4, h5, h6, List.filterMap]

/-! ## Contact-map lemmas -/

theorem keyLe_trans (p q r : String × String) (h1 : keyLe p q = true)
    (h2 : keyLe q r = true) : keyLe p r = true := by
  unfold keyLe at h1 h2 ⊢
  rcases Bool.or_eq_true_iff.mp h1 with hlt1 | hand1
  · rcases Bool.or_eq_true_iff.mp h2 with hlt2 | hand2
    · exact Bool.or_eq_true_iff.mpr (Or.inl (strLtb_trans hlt1 hlt2))
    · obtain ⟨heq2, _⟩ := Bool.and_eq_true_iff.mp hand2
      have : q.1 = r.1 := beq_iff_eq.mp heq2
      exact Bool.or_eq_true_iff.mpr (Or.inl (this ▸ hlt1))
  · obtain ⟨heq1, hf1⟩ := Bool.and_eq_true_iff.mp hand1
    have hpq : p.1 = q.1 := beq_iff_eq.mp heq1
    rcases Bool.or_eq_true_iff.mp h2 with hlt2 | hand2
    · exact Bool.or_eq_true_iff.mpr (Or.inl (hpq ▸ hlt2))
    · obtain ⟨heq2, hf2⟩ := Bool.and_eq_true_iff.mp hand2
      have hqr : q.1 = r.1 := beq_iff_eq.mp heq2
      refine Bool.or_eq_true_iff.mpr (Or.inr (Bool.and_eq_true_iff.mpr ⟨?_, ?_⟩))
      · exact beq_iff_eq.mpr (hpq.trans hqr)
      · cases hP : (p.2 == "") <;> cases hQ : (q.2 == "") <;> cases hR : (r.2 == "") <;>
          simp_all

theorem keyLe_total (p q : String × String) : keyLe p q = true ∨ keyLe q p = true := by
  unfold keyLe
  by_cases h1 : strLtb p.1 q.1 = true
  · exact Or.inl (Bool.or_eq_true_iff.mpr (Or.inl h1))
  · by_cases h2 : strLtb q.1 p.1 = true
    · exact Or.inr (Bool.or_eq_true_iff.mpr (Or.inl h2))
    · have heq : p.1 = q.1 :=
        eq_of_not_strLtb (Bool.not_eq_true _ ▸ h1) (Bool.not_eq_true _ ▸ h2)
      cases hP : (p.2 == "") <;> cases hQ : (q.2 == "") <;> simp_all

theorem find?_pairwise {α : Type} {R : α → α → Prop} :
    ∀ {l : List α}, List.Pairwise R l → ∀ {p : α → Bool} {x : α}, l.find? p = some x →
      ∀ {y}, y ∈ l → p y = true → x = y ∨ R x y
  | [], _, _, _, hf, _, hy, _ => by cases hy
  | a :: as, hp, p, x, hf, y, hy, hpy => by
    rcases List.pairwise_cons.mp hp with ⟨ha, has⟩
    rw [List.find?_cons] at hf
    by_cases hpa : p a = true
    · rw [hpa] at hf
      have hxa : x = a := by injection hf with h; exact h.symm
      subst hxa
      rcases List.mem_cons.mp hy with hya | hyt
      · exact Or.inl hya.symm
      · exact Or.inr (ha y hyt)
    · have hpa' : p a = false := by simpa using hpa
      rw [hpa'] at hf
      rcases List.mem_cons.mp hy with hya | hyt
      · exact absurd (hya ▸ hpy) hpa
      · exact find?_pairwise has hf hyt hpy

/-- The rows of the contact table after the column projection and the
blank-identifier filter of `build_gpn_to_email_map`. -/
def contactKept (rows : List CRow) : List (String × String) :=
  (rows.map (fun r => (contactKey r, emailRaw r))).filter (fun p => p.1 != "")

theorem build_map_eq (rows : List CRow) :
    build_gpn_to_email_map rows = dedupeGo [] (sortLe keyLe (contactKept rows)) := rfl

theorem build_map_mem_iff {rows : List CRow} {k v : String} :
    (k, v) ∈ build_gpn_to_email_map rows ↔
      (sortLe keyLe (contactKept rows)).find? (fun p => p.1 == k) = some (k, v) := by
  rw [build_map_eq, mem_dedupeGo]
  have : ([] : List String).contains k = false := rfl
  simp [this]

theorem mem_contactKept_iff {rows : List CRow} {p : String × String} :
    p ∈ contactKept rows ↔ p.1 ≠ "" ∧ ∃ r ∈ rows, (contactKey r, emailRaw r) = p := by
  unfold contactKept
  rw [List.mem_filter, List.mem_map]
  constructor
  · rintro ⟨hm, hne⟩
    exact ⟨by simpa using hne, hm⟩
  · rintro ⟨hne, hm⟩
    exact ⟨hm, by simpa using hne⟩

theorem mem_sorted_contactKept_iff {rows : List CRow} {p : String × String} :
    p ∈ sortLe keyLe (contactKept rows) ↔ p ∈ contactKept rows :=
  (perm_sortLe keyLe (contactKept rows)).mem_iff

theorem exists_find?_key {k : String} :
    ∀ {l : List (String × String)}, (∃ p ∈ l, p.1 = k) →
      ∃ v, l.find? (fun p => p.1 == k) = some (k, v)
  | [], h => by
    obtain ⟨p, hp, _⟩ := h
    cases hp
  | a :: as, h => by
    by_cases hak : a.1 = k
    · obtain ⟨a1, a2⟩ := a
      simp only at hak
      subst hak
      refine ⟨a2, ?_⟩
      rw [List.find?_cons]
      have hb : ((a1, a2).1 == a1) = true := by simp
      rw [hb]
    · obtain ⟨p, hp, hpk⟩ := h
      rcases List.mem_cons.mp hp with hpa | hpt
      · exact absurd (hpa ▸ hpk) hak
      · obtain ⟨v, hv⟩ := exists_find?_key ⟨p, hpt, hpk⟩
        refine ⟨v, ?_⟩
        rw [List.find?_cons]
        have : (a.1 == k) = false := by simp [hak]
        rw [this]
        exact hv

/-! ## Claim theorems -/

/-- C1: the claim says `build_unique_gpn` drops every row whose normalized
identifier is empty.  The code's `.dropna(subset=[col_gpn])` runs after the
column has been replaced by `clean_series` output (always a `str`), so it
removes nothing: on a roster with identifiers `"A1"`/`""`, the output KEEPS a
row with the empty identifier, sorted first, contradicting the claim (and the
spec's §4.5 guarantee).  This evaluates the embedded code at that failing
input. -/
theorem c1_dropna_keeps_blank_gpn :
    build_unique_gpn
        [⟨some "A1", some "Alice", none, none⟩, ⟨some "", some "Bob", none, none⟩]
      = [("", "bob"), ("a1", "alice")] := by decide

/-- C2: on the spec's two-row end-to-end roster the exception part of the
claim holds (row 2 is the single exception, with exactly the claimed reason
string), but deduplication after empty-selection filtering yields TWO rows —
`("", "bob")` survives because the blank-identifier drop is a no-op — and
resolution against `A1 → a1@ex.com` therefore yields one resolved contact and
ONE unresolved identifier (the empty one), not zero. -/
theorem c2_end_to_end_eval :
    compute_exceptions
        [⟨some "A1", some "Alice", some "Completed", some "FY26-Q1(July-Sep)"⟩,
         ⟨some "", some "Bob", some "Weird", some ""⟩]
      = [(⟨some "", some "Bob", some "Weird", some ""⟩,
          "Invalid Status, Blank Completion-Cycle, Blank GPN")]
    ∧ build_unique_gpn (apply_filters
        [⟨some "A1", some "Alice", some "Completed", some "FY26-Q1(July-Sep)"⟩,
         ⟨some "", some "Bob", some "Weird", some ""⟩] [] [])
      = [("", "bob"), ("a1", "alice")]
    ∧ resolveContacts (build_gpn_to_email_map [⟨some "A1", some "a1@ex.com"⟩])
        [("", "bob"), ("a1", "alice")]
      = (["a1@ex.com"], [""]) := by
  refine ⟨by decide, by decide, by decide⟩

/-- C3 counterexample: normalization is NOT idempotent for every input.  The
`"nan" ↦ ""` mapping runs before case-folding, so `clean_series "NAN" = "nan"`,
and a second pass maps that `"nan"` to `""`. -/
theorem c3_counterexample :
    clean_series (clean_series "NAN") ≠ clean_series "NAN" := by decide

/-- C3 amended: normalization is idempotent for every input whose normalized
form is not the exact string `"nan"`; only the missing-value mapping can act
on a second pass. -/
theorem c3_idempotent_unless_nan (s : String) (h : clean_series s ≠ "nan") :
    clean_series (clean_series s) = clean_series s :=
  clean_series_fixed h

/-- Witness for C3 at the concrete input `"  Hello  World "`. -/
theorem c3_witness :
    clean_series "  Hello  World " ≠ "nan" ∧
      clean_series (clean_series "  Hello  World ") = clean_series "  Hello  World " :=
  ⟨by decide, c3_idempotent_unless_nan "  Hello  World " (by decide)⟩

/-- C4 counterexample: the label normalizer of `coalesce_columns` does NOT
collapse runs of whitespace — `"A  B"` (two interior spaces) and `"A B"` get
different keys, contradicting the claim. -/
theorem c4_counterexample : normLabel "A  B" ≠ normLabel "A B" := by decide

/-- C4 amended: two labels whose characters agree up to ASCII case map to the
same key, and single hyphens/underscores are replaced by single spaces (e.g.
`"GPN_ID"`, `"GPN-ID"` and `"gpn id"` coincide); runs of whitespace are NOT
collapsed, so labels differing in interior whitespace runs get different
keys. -/
theorem c4_label_normalization_amended :
    (∀ a b : String, a.data.map lowerChar = b.data.map lowerChar →
        normLabel a = normLabel b)
    ∧ normLabel "GPN_ID" = normLabel "gpn id"
    ∧ normLabel "GPN-ID" = normLabel "gpn id"
    ∧ normLabel "A  B" ≠ normLabel "A B" :=
  ⟨fun _ _ h => normLabel_of_map_lower_eq h, by decide, by decide, by decide⟩

/-- Witness for C4 at the concrete labels `"GPN"` and `"gpn"`. -/
theorem c4_witness : normLabel "GPN" = normLabel "gpn" :=
  c4_label_normalization_amended.1 "GPN" "gpn" (by decide)

/-- C5: `coalesce_columns` tries `primary` then each alternate in order and
returns the table column matched by the FIRST successful candidate (later
candidates are never consulted), and the returned label is an actual column;
when no candidate matches, the error carries exactly the attempted candidate
list and the full column list (the two lists the `KeyError` message
interpolates). -/
theorem c5_coalesce_columns (cols : List String) (primary : String) (alts : List String) :
    (∀ pre c post orig, primary :: alts = pre ++ c :: post →
        (∀ c' ∈ pre, normLookup cols (normLabel c') = none) →
        normLookup cols (normLabel c) = some orig →
        coalesce_columns cols primary alts = Except.ok orig ∧ orig ∈ cols)
    ∧ ((∀ c ∈ primary :: alts, normLookup cols (normLabel c) = none) →
        coalesce_columns cols primary alts = Except.error (primary :: alts, cols)) := by
  constructor
  · intro pre c post orig hsplit hpre hc
    have hgo : coalesceGo cols (primary :: alts) = some orig := by
      rw [hsplit, coalesceGo_skip hpre, coalesceGo_cons_found hc]
    refine ⟨?_, normLookup_mem hc⟩
    show (match coalesceGo cols (primary :: alts) with
          | some orig => Except.ok orig
          | none => Except.error (primary :: alts, cols)) = Except.ok orig
    rw [hgo]
  · intro hall
    have hgo : coalesceGo cols (primary :: alts) = none := by
      have h : coalesceGo cols ((primary :: alts) ++ []) = coalesceGo cols [] :=
        coalesceGo_skip hall
      rwa [List.append_nil] at h
    show (match coalesceGo cols (primary :: alts) with
          | some orig => Except.ok orig
          | none => Except.error (primary :: alts, cols)) = _
    rw [hgo]

/-- Witness for C5: a table with both `"GPN"` and `"GPN ID"` resolves primary
`"GPN"` to `"GPN"` even though the alternate would also match; a table with
neither yields the error naming all candidates and all columns. -/
theorem c5_witness :
    coalesce_columns ["GPN ID", "GPN"] "GPN" ["GPN ID"] = Except.ok "GPN"
    ∧ coalesce_columns ["Foo"] "GPN" ["GPN ID"]
        = Except.error (["GPN", "GPN ID"], ["Foo"]) :=
  ⟨((c5_coalesce_columns ["GPN ID", "GPN"] "GPN" ["GPN ID"]).1 [] "GPN" ["GPN ID"] "GPN"
      rfl (by simp) (by decide)).1,
   (c5_coalesce_columns ["Foo"] "GPN" ["GPN ID"]).2 (by decide)⟩

/-- C6: `apply_filters` keeps exactly the rows whose normalized status lies in
the case-folded status selection (every row when that selection is empty) AND
whose normalized cycle lies in the case-folded cycle selection (every row when
empty), preserving input order (sublist); empty selections are a no-op and a
non-empty selection matching no row empties the result. -/
theorem c6_apply_filters (rows : List Row) (selS selC : List String) :
    (apply_filters rows selS selC).Sublist rows
    ∧ (∀ r : Row, r ∈ apply_filters rows selS selC ↔
        r ∈ rows ∧ (selS = [] ∨ normStatus r ∈ selS.map pyCasefold)
          ∧ (selC = [] ∨ normCycle r ∈ selC.map pyCasefold))
    ∧ (selS = [] → selC = [] → apply_filters rows selS selC = rows)
    ∧ (selS ≠ [] → (∀ r ∈ rows, normStatus r ∉ selS.map pyCasefold) →
        apply_filters rows selS selC = []) := by
  have hmask : ∀ r : Row, rowMask (mkSel selS) (mkSel selC) r = true ↔
      ((selS = [] ∨ normStatus r ∈ selS.map pyCasefold)
        ∧ (selC = [] ∨ normCycle r ∈ selC.map pyCasefold)) := by
    intro r
    unfold rowMask mkSel
    by_cases hs : selS = [] <;> by_cases hc : selC = [] <;>
      simp [hs, hc, List.contains, List.elem_iff]
  refine ⟨List.filter_sublist rows, ?_, ?_, ?_⟩
  · intro r
    rw [show apply_filters rows selS selC
        = rows.filter (rowMask (mkSel selS) (mkSel selC)) from rfl, List.mem_filter,
      hmask r]
  · intro hs hc
    rw [show apply_filters rows selS selC
        = rows.filter (rowMask (mkSel selS) (mkSel selC)) from rfl, List.filter_eq_self]
    intro r _
    exact (hmask r).mpr ⟨Or.inl hs, Or.inl hc⟩
  · intro hs habs
    rw [show apply_filters rows selS selC
        = rows.filter (rowMask (mkSel selS) (mkSel selC)) from rfl, List.filter_eq_nil_iff]
    intro r hr hmk
    rcases ((hmask r).mp hmk).1 with h | h
    · exact hs h
    · exact habs r hr h

/-- Witness for C6: empty selections pass both rows through unchanged, and a
status selection matching nothing in the table empties it. -/
theorem c6_witness :
    apply_filters [⟨some "A1", some "Alice", some "Completed", some "FY26-Q1(July-Sep)"⟩]
        [] [] = [⟨some "A1", some "Alice", some "Completed", some "FY26-Q1(July-Sep)"⟩]
    ∧ apply_filters [⟨some "A1", some "Alice", some "Completed", some "FY26-Q1(July-Sep)"⟩]
        ["Rejected"] [] = [] :=
  ⟨(c6_apply_filters [⟨some "A1", some "Alice", some "Completed",
      some "FY26-Q1(July-Sep)"⟩] [] []).2.2.1 rfl rfl,
   (c6_apply_filters [⟨some "A1", some "Alice", some "Completed",
      some "FY26-Q1(July-Sep)"⟩] ["Rejected"] []).2.2.2 (by simp) (by decide)⟩

/-- C7: `compute_exceptions` returns exactly the rows with at least one
triggered reason, in input order, each annotated with the reasons joined by
`", "`; the per-row reason list is the six predicates evaluated independently
in the fixed order Blank Status, Invalid Status, Blank Completion-Cycle,
Invalid Completion-Cycle, Blank GPN, Blank Name; and the spec's order-stable
example (statuses `""`/`"Completed"`/`"Bogus"`, everything else valid) yields
exactly `["Blank Status", "", "Invalid Status"]`. -/
theorem c7_compute_exceptions :
    (∀ rows : List Row, compute_exceptions rows
        = (rows.filter (fun r => rowReasons r != [])).map (fun r => (r, reasonStr r)))
    ∧ (∀ r : Row, rowReasons r =
        ([(status_blank r, "Blank Status"), (status_invalid r, "Invalid Status"),
          (cycle_blank r, "Blank Completion-Cycle"),
          (cycle_invalid r, "Invalid Completion-Cycle"),
          (gpn_blank r, "Blank GPN"), (name_blank r, "Blank Name")].filterMap
            (fun p => if p.1 then some p.2 else none)))
    ∧ (∀ r : Row, reasonStr r = joinSep ", " (rowReasons r))
    ∧ ([⟨some "G1", some "N1", some "", some "FY26-Q1(July-Sep)"⟩,
        ⟨some "G2", some "N2", some "Completed", some "FY26-Q1(July-Sep)"⟩,
        ⟨some "G3", some "N3", some "Bogus", some "FY26-Q1(July-Sep)"⟩].map reasonStr
        = ["Blank Status", "", "Invalid Status"]) :=
  ⟨compute_exceptions_eq, rowReasons_filterMap, fun _ => rfl, by decide⟩

/-- C8: `build_gpn_to_email_map` has exactly one entry per distinct non-empty
normalized identifier of the input (no entry otherwise), every entry's value
is the cleaned contact string of some row with that identifier, an entry is
blank only when every row with that identifier has a blank contact (non-blank
contacts win the stable `(identifier, has-blank-contact)` sort), and on the
spec's two-row example the non-blank contact wins in either input order. -/
theorem c8_build_gpn_to_email_map (rows : List CRow) :
    (∀ k : String, (∃ v, (k, v) ∈ build_gpn_to_email_map rows) ↔
        (k ≠ "" ∧ ∃ r ∈ rows, contactKey r = k))
    ∧ ((build_gpn_to_email_map rows).map Prod.fst).Nodup
    ∧ (∀ k v : String, (k, v) ∈ build_gpn_to_email_map rows →
        k ≠ "" ∧ ∃ r ∈ rows, contactKey r = k ∧ emailRaw r = v)
    ∧ (∀ k v : String, (k, v) ∈ build_gpn_to_email_map rows →
        (∃ r ∈ rows, contactKey r = k ∧ emailRaw r ≠ "") → v ≠ "")
    ∧ map_get (build_gpn_to_email_map
        [⟨some "X1", some ""⟩, ⟨some "X1", some "x1@ex.com"⟩]) (pyCasefold "X1")
        = "x1@ex.com"
    ∧ map_get (build_gpn_to_email_map
        [⟨some "X1", some "x1@ex.com"⟩, ⟨some "X1", some ""⟩]) (pyCasefold "X1")
        = "x1@ex.com" := by
  have hprov : ∀ k v : String, (k, v) ∈ build_gpn_to_email_map rows →
      k ≠ "" ∧ ∃ r ∈ rows, contactKey r = k ∧ emailRaw r = v := by
    intro k v hv
    have hf := build_map_mem_iff.mp hv
    have hmem : (k, v) ∈ sortLe keyLe (contactKept rows) := List.mem_of_find?_eq_some hf
    obtain ⟨hne, r, hr, hre⟩ := mem_contactKept_iff.mp (mem_sorted_contactKept_iff.mp hmem)
    exact ⟨hne, r, hr, congrArg Prod.fst hre, congrArg Prod.snd hre⟩
  refine ⟨?_, ?_, hprov, ?_, by decide, by decide⟩
  · intro k
    constructor
    · rintro ⟨v, hv⟩
      obtain ⟨hne, r, hr, hck, _⟩ := hprov k v hv
      exact ⟨hne, r, hr, hck⟩
    · rintro ⟨hk, r, hr, hck⟩
      have hmem : (k, emailRaw r) ∈ contactKept rows :=
        mem_contactKept_iff.mpr ⟨hk, r, hr, by rw [hck]⟩
      obtain ⟨v, hv⟩ :=
        exists_find?_key ⟨(k, emailRaw r), mem_sorted_contactKept_iff.mpr hmem, rfl⟩
      exact ⟨v, build_map_mem_iff.mpr hv⟩
  · rw [build_map_eq]
    exact (nodupKeys_dedupeGo [] (sortLe keyLe (contactKept rows))).1
  · intro k v hv hex
    obtain ⟨r0, hr0, hk0, hne0⟩ := hex
    have hf := build_map_mem_iff.mp hv
    have hkne : k ≠ "" := (hprov k v hv).1
    have hmem0 : (k, emailRaw r0) ∈ sortLe keyLe (contactKept rows) :=
      mem_sorted_contactKept_iff.mpr (mem_contactKept_iff.mpr ⟨hkne, r0, hr0, by rw [hk0]⟩)
    have hpw := pairwise_sortLe keyLe_trans keyLe_total (contactKept rows)
    rcases find?_pairwise hpw hf hmem0 (by simp) with heq | hle
    · intro hv0
      apply hne0
      have h2 := congrArg Prod.snd heq
      simp only at h2
      rw [← h2, hv0]
    · intro hv0
      subst hv0
      apply hne0
      apply beq_iff_eq.mp
      simpa [keyLe, strLtb_irrefl] using hle

/-- Witness for C8: the general parts applied to the spec's two-row example
(non-blank contact present in either order). -/
theorem c8_witness :
    (("x1", "x1@ex.com") ∈ build_gpn_to_email_map
        [⟨some "X1", some ""⟩, ⟨some "X1", some "x1@ex.com"⟩] → ("x1@ex.com" : String) ≠ "")
    ∧ (∃ v, ("x1", v) ∈ build_gpn_to_email_map
        [⟨some "X1", some ""⟩, ⟨some "X1", some "x1@ex.com"⟩]) :=
  ⟨fun hv => (c8_build_gpn_to_email_map
      [⟨some "X1", some ""⟩, ⟨some "X1", some "x1@ex.com"⟩]).2.2.2.1 "x1" "x1@ex.com" hv
      ⟨⟨some "X1", some "x1@ex.com"⟩, by decide, by decide, by decide⟩,
   ((c8_build_gpn_to_email_map
      [⟨some "X1", some ""⟩, ⟨some "X1", some "x1@ex.com"⟩]).1 "x1").mpr
      ⟨by decide, ⟨some "X1", some ""⟩, by decide, by decide⟩⟩

/-- C9: with an empty deduplicated table the orchestrator's trace is exactly
the zero-match report — the contact map is never built and nothing is composed
— and the dispatch step composes no message whenever the cleaned recipient
list is empty. -/
theorem c9_orchestrator_guards :
    (∀ masterRows : List CRow, mainAfterDedup [] masterRows = [Ev.reportZeroMatches]
        ∧ Ev.buildContactMap ∉ mainAfterDedup [] masterRows
        ∧ ∀ recips : List String, Ev.composeMail recips ∉ mainAfterDedup [] masterRows)
    ∧ (∀ emails : List String, cleanEmailsGo [] emails = [] →
        perform_action_with_emails emails = []) := by
  constructor
  · intro masterRows
    have he : mainAfterDedup [] masterRows = [Ev.reportZeroMatches] := rfl
    refine ⟨he, ?_, ?_⟩
    · rw [he]
      simp
    · intro recips
      rw [he]
      simp
  · intro emails h
    show (if cleanEmailsGo [] emails = [] then []
          else [Ev.composeMail (cleanEmailsGo [] emails)]) = []
    rw [if_pos h]

/-- Witness for C9 at concrete inputs: an empty dedup table, and a recipient
list that cleans to empty. -/
theorem c9_witness :
    mainAfterDedup [] [⟨some "A1", some "a1@ex.com"⟩] = [Ev.reportZeroMatches]
    ∧ perform_action_with_emails ["", "   "] = [] :=
  ⟨(c9_orchestrator_guards.1 [⟨some "A1", some "a1@ex.com"⟩]).1,
   c9_orchestrator_guards.2 ["", "   "] (by decide)⟩

/-- C10: the `"nan" ↦ ""` missing-value mapping is case-sensitive and runs
before case-folding: every cell whose Unicode-cleaned, trimmed content is
exactly the lowercase `"nan"` normalizes to `""`, while `"NaN"` and `"NAN"`
normalize to the non-empty string `"nan"`. -/
theorem c10_nan_case_sensitivity :
    (∀ s : String, hdr_clean s = "nan" → clean_series s = "")
    ∧ clean_series "nan" = ""
    ∧ clean_series " nan " = ""
    ∧ clean_series "NaN" = "nan"
    ∧ clean_series "NAN" = "nan"
    ∧ ("nan" : String) ≠ "" := by
  refine ⟨?_, by decide, by decide, by decide, by decide, by decide⟩
  intro s h
  apply String.ext
  show cleanL s.data = "".data
  have hd : stripL (zwL (nbL s.data)) = "nan".data := congrArg String.data h
  unfold cleanL
  rw [hd]
  decide

/-- Witness for C10 at a concrete input with surrounding whitespace and a
zero-width space around `nan`. -/
theorem c10_witness :
    hdr_clean " nan​ " = "nan" ∧ clean_series " nan​ " = "" :=
  ⟨by decide, c10_nan_case_sensitivity.1 " nan​ " (by decide)⟩

end BadgeFilter
